import Mathlib

/-!
Verification of the NeuroDraft chapter-consistency engine (UpdateManager),
project store (ProjectManager) and auto-save controller (AutoSaveManager),
shallowly embedded from the C++/Qt sources.

Conventions of the embedding:
* File contents are UTF-8 text without carriage returns (the application
  opens files with QIODevice::Text, which normalizes line endings to LF).
* The filesystem is modelled as an association list from path to content;
  paths are relative to the project's chapters directory, so a chapter's
  QFileInfo::fileName and its absolute path coincide in the model.
* Qt regular expressions are embedded at character level.  CHAPTER_REGEX is
  the PCRE pattern  ^#\s+(.+)$  with the multiline option, SUBSECTION_REGEX
  is  ^##\s+(.+)$  with the multiline option; \s is ASCII whitespace, `.`
  matches every character except LF, `^`/`$` match at line boundaries, and
  `\s+` backtracks greedily exactly as in PCRE.
* Scans that resume strictly further into the subject on every step are
  written with an explicit fuel argument, initialized to more than the
  subject length, so that they are structurally recursive; the fuel can
  never run out on the initial call.
* C++ int values are modelled as Int; QString::toInt overflow (beyond
  2147483647) yields 0 exactly as in Qt.
-/

namespace NeuroDraft

/-- ASCII whitespace as matched by PCRE `\s` (and by QString::trimmed on
ASCII data): space, tab, LF, VT, FF, CR. -/
def isQtSpace (c : Char) : Bool :=
  c = ' ' || c = '\t' || c = '\n' || c = '\x0B' || c = '\x0C' || c = '\r'

/-- QString::trimmed on a character list: strip leading and trailing
whitespace. -/
def qtTrim (cs : List Char) : List Char :=
  ((cs.dropWhile isQtSpace).reverse.dropWhile isQtSpace).reverse

/-- String comparison by code point, as QString compares by UTF-16 code
unit (identical for the ASCII file names involved). -/
def charListLt : List Char → List Char → Bool
  | [], [] => false
  | [], _ :: _ => true
  | _ :: _, [] => false
  | a :: as, b :: bs =>
    if a.toNat < b.toNat then true
    else if b.toNat < a.toNat then false
    else charListLt as bs

def strLt (a b : String) : Bool := charListLt a.toList b.toList

/-- QString::endsWith. -/
def strEndsWith (s suffixStr : String) : Bool :=
  s.toList.reverse.take suffixStr.toList.length == suffixStr.toList.reverse

/-- QString::split on LF, keeping empty parts (the Qt default). -/
def splitNl : List Char → List (List Char)
  | [] => [[]]
  | c :: tl =>
    if c = '\n' then [] :: splitNl tl
    else
      match splitNl tl with
      | [] => [[c]]
      | l :: ls => (c :: l) :: ls

def splitNlStr (s : String) : List String := (splitNl s.toList).map String.mk

/-- QStringList::join with LF. -/
def joinNl (lines : List String) : String :=
  match lines with
  | [] => ""
  | l :: ls => ls.foldl (fun acc x => acc ++ "\n" ++ x) l

/-- Match the regex fragment `\s+(.+)$` against `rest` (the text following
the `#` marks), PCRE-greedy with backtracking: consume a maximal run of
whitespace, then capture a maximal nonempty run of non-LF characters ending
at a line boundary; if nothing follows the maximal run, backtrack into the
whitespace.  Returns the capture and the text after the match. -/
def matchWsCapture (rest : List Char) : Option (List Char × List Char) :=
  let w := rest.takeWhile isQtSpace
  if w.length = 0 then none
  else
    let tail := rest.drop w.length
    if tail.length ≠ 0 then
      let cap := tail.takeWhile (fun c => c != '\n')
      some (cap, rest.drop (w.length + cap.length))
    else
      -- the subject ends inside the whitespace run: PCRE backtracks and
      -- lets `.` consume trailing non-LF whitespace
      match (List.range w.length).filter
          (fun k => decide (0 < k) && ((w.get? k).map (fun c => c != '\n')).getD false) with
      | [] => none
      | k0 :: ks =>
        let k := ks.foldl max k0
        let cap := (rest.drop k).takeWhile (fun c => c != '\n')
        some (cap, rest.drop (k + cap.length))

/-- Match CHAPTER_REGEX `^#\s+(.+)$` at a line start. -/
def matchChapterHeadAt (cs : List Char) : Option (List Char × List Char) :=
  match cs with
  | c :: rest => if c = '#' then matchWsCapture rest else none
  | [] => none

/-- Match SUBSECTION_REGEX `^##\s+(.+)$` at a line start. -/
def matchSubsectionHeadAt (cs : List Char) : Option (List Char × List Char) :=
  match cs with
  | c :: d :: rest => if c = '#' ∧ d = '#' then matchWsCapture rest else none
  | _ => none

/-- First match of a multiline-anchored pattern over the whole subject:
try the matcher at every line start, left to right, and return the first
capture.  This is QRegularExpression::match for an `^…$`-anchored
multiline pattern. -/
def firstLineMatchAux (f : List Char → Option (List Char × List Char)) :
    Nat → List Char → Option (List Char)
  | 0, _ => none
  | fuel + 1, cs =>
    match f cs with
    | some (cap, _) => some cap
    | none =>
      match cs.dropWhile (fun c => c != '\n') with
      | [] => none
      | _ :: tl => firstLineMatchAux f fuel tl

def firstLineMatch (f : List Char → Option (List Char × List Char))
    (cs : List Char) : Option (List Char) :=
  firstLineMatchAux f (cs.length + 1) cs

/-- All matches of a multiline-anchored pattern, in subject order, as for
QRegularExpression::globalMatch: after a match, scanning resumes at the end
of the match. -/
def allLineMatchesAux (f : List Char → Option (List Char × List Char)) :
    Nat → List Char → List (List Char)
  | 0, _ => []
  | fuel + 1, cs =>
    match f cs with
    | some (cap, rem) =>
      cap ::
        (match rem with
         | [] => []
         | _ :: tl => allLineMatchesAux f fuel tl)
    | none =>
      match cs.dropWhile (fun c => c != '\n') with
      | [] => []
      | _ :: tl => allLineMatchesAux f fuel tl

def allLineMatches (f : List Char → Option (List Char × List Char))
    (cs : List Char) : List (List Char) :=
  allLineMatchesAux f (cs.length + 1) cs

/-- QString::replace(CHAPTER_REGEX, newHeader): splice `newHdr` over every
match of `^#\s+(.+)$` in the subject; text between matches is copied
verbatim.  (The replacement text used by the program never contains
backslash escapes, so literal splicing is faithful.) -/
def replaceChapterHeadsAux (newHdr : List Char) : Nat → List Char → List Char
  | 0, cs => cs
  | fuel + 1, cs =>
    match matchChapterHeadAt cs with
    | some (_, rem) =>
      newHdr ++
        (match rem with
         | [] => []
         | r :: tl => r :: replaceChapterHeadsAux newHdr fuel tl)
    | none =>
      match cs.dropWhile (fun c => c != '\n') with
      | [] => cs
      | r :: tl =>
        cs.takeWhile (fun c => c != '\n') ++ r :: replaceChapterHeadsAux newHdr fuel tl

def replaceChapterHeads (newHdr : List Char) (cs : List Char) : List Char :=
  replaceChapterHeadsAux newHdr (cs.length + 1) cs

/-! ### Filesystem model

The project's `chapters/` directory as an association list from path to
content.  Paths are unique in every state this development builds; every
mutating primitive appends an event to an execution log so that ordering
claims about renames and content writes can be stated. -/

abbrev FS := List (String × String)

def FS.readFile (fs : FS) (p : String) : Option String :=
  (fs.find? (fun e => e.1 == p)).map (fun e => e.2)

def FS.writeFile (fs : FS) (p c : String) : FS :=
  match fs with
  | [] => [(p, c)]
  | e :: rest => if e.1 == p then (p, c) :: rest else e :: FS.writeFile rest p c

def FS.removeFile (fs : FS) (p : String) : FS :=
  fs.filter (fun e => e.1 != p)

/-- Filesystem events, in execution order. -/
inductive FsEv where
  | removeEv (path : String)
  | copyEv (src dst : String)
  | renameEv (oldPath newPath : String)
  | writeEv (path : String)
  deriving Repr, DecidableEq

/-- Program state: the on-disk chapters directory plus the log of
filesystem events performed so far. -/
structure St where
  fs : FS
  log : List FsEv
  deriving Repr, DecidableEq

/-! ### UpdateManager: parsing (UpdateManager.cpp) -/

/-- ChapterInfo from UpdateManager.h (the QTreeWidgetItem pointer is GUI
state and is omitted). -/
structure ChapterInfo where
  name : String
  fileName : String
  filePath : String
  chapterNumber : Int
  subsections : List String
  deriving Repr, DecidableEq

structure SubsectionInfo where
  title : String
  chapterNumber : Int
  subsectionNumber : Int
  lineNumber : Int
  anchor : String
  deriving Repr, DecidableEq

/-- QString::toInt on a digit capture: leading zeros are allowed; a value
beyond INT_MAX fails and yields 0. -/
def digitsToInt (ds : List Char) : Int :=
  let n : Nat := ds.foldl (fun a c => a * 10 + (c.toNat - 48)) 0
  if n ≤ 2147483647 then (n : Int) else 0

/-- Try the filename pattern `chapter_(\d+)\.` at the head of `cs`:
the literal `chapter_`, then a maximal nonempty digit run, then a dot. -/
def matchChapterNumAt (cs : List Char) : Option (List Char) :=
  if cs.take 8 = "chapter_".toList then
    let rest := cs.drop 8
    let ds := rest.takeWhile Char.isDigit
    if 0 < ds.length ∧ (rest.drop ds.length).head? = some '.' then some ds else none
  else none

/-- First match of `chapter_(\d+)\.` anywhere in the subject
(QRegularExpression::match scans left to right). -/
def findChapterNum : List Char → Option (List Char)
  | [] => none
  | c :: tl =>
    match matchChapterNumAt (c :: tl) with
    | some ds => some ds
    | none => findChapterNum tl

/-- Chapter number derived from a file name (`chapter_01.md` yields 1);
defaults to 1 when the pattern is absent, as in parseChapterFile. -/
def extractChapterNumber (fileName : String) : Int :=
  match findChapterNum fileName.toList with
  | some ds => digitsToInt ds
  | none => 1

/-- UpdateManager::parseChapterFile.  `content?` is the file's text, or
`none` when the file cannot be opened (the C++ then returns early with an
empty name and the entry is later discarded by analyzeProject). -/
def parseChapterFile (filePath : String) (content? : Option String) : ChapterInfo :=
  let fileName := filePath   -- QFileInfo::fileName; paths are relative in the model
  match content? with
  | none =>
    { name := "", fileName := fileName, filePath := filePath,
      chapterNumber := 0, subsections := [] }
  | some content =>
    let cs := content.toList
    let chapterNumber := extractChapterNumber fileName
    let name :=
      match firstLineMatch matchChapterHeadAt cs with
      | some cap => String.mk (qtTrim cap)
      | none => String.mk (fileName.toList.takeWhile (fun c => c != '.'))  -- QFileInfo::baseName
    let subs := (allLineMatches matchSubsectionHeadAt cs).map (fun cap => String.mk (qtTrim cap))
    { name := name, fileName := fileName, filePath := filePath,
      chapterNumber := chapterNumber, subsections := subs }

/-- Stable insertion into a sorted list: `x` goes after every element it is
not strictly below. -/
def insertByLt (lt : α → α → Bool) (x : α) : List α → List α
  | [] => [x]
  | y :: ys => if lt x y then x :: y :: ys else y :: insertByLt lt x ys

/-- Stable insertion sort with a strict comparator. -/
def sortByLt (lt : α → α → Bool) (l : List α) : List α :=
  l.foldl (fun acc x => insertByLt lt x acc) []

/-- UpdateManager::analyzeProject: list `*.md` and `*.txt` files of the
chapters directory in name order (QDir::Name), parse each, keep the ones
with a nonempty name, and sort by chapter number.  The C++ uses std::sort,
which is unstable, so the relative order of chapters with equal numbers is
unspecified there; the model's stable sort agrees with every conforming
implementation whenever the chapter numbers are distinct. -/
def analyzeProject (fs : FS) : List ChapterInfo :=
  let files := (fs.map Prod.fst).filter
    (fun n => strEndsWith n ".md" || strEndsWith n ".txt")
  let sorted := sortByLt strLt files
  let parsed := sorted.map (fun n => parseChapterFile n (fs.readFile n))
  let chapters := parsed.filter (fun ch => !ch.name.isEmpty)
  sortByLt (fun a b => decide (a.chapterNumber < b.chapterNumber)) chapters

/-! ### UpdateManager: file operations -/

def BACKUP_SUFFIX : String := ".neurodraft_backup"

/-- UpdateManager::createBackup: remove a prior backup, then copy the file
to `<path>.neurodraft_backup`; fails when the source is missing. -/
def createBackup (st : St) (filePath : String) : Option St :=
  let backupPath := filePath ++ BACKUP_SUFFIX
  let st1 : St :=
    if (st.fs.readFile backupPath).isSome then
      ⟨st.fs.removeFile backupPath, st.log ++ [FsEv.removeEv backupPath]⟩
    else st
  match st1.fs.readFile filePath with
  | none => none
  | some content =>
    some ⟨st1.fs.writeFile backupPath content, st1.log ++ [FsEv.copyEv filePath backupPath]⟩

/-- UpdateManager::renameProjectFile: identity when the paths are equal,
error when the target exists, otherwise a filesystem rename. -/
def renameProjectFile (st : St) (oldPath newPath : String) : Option St :=
  if oldPath = newPath then some st
  else if (st.fs.readFile newPath).isSome then none
  else
    match st.fs.readFile oldPath with
    | none => none
    | some content =>
      some ⟨(st.fs.removeFile oldPath).writeFile newPath content,
            st.log ++ [FsEv.renameEv oldPath newPath]⟩

/-- UpdateManager::updateChapterFile: read the file, splice
`# Chapter N: <name>` over every CHAPTER_REGEX match, write back. -/
def updateChapterFile (st : St) (filePath : String) (info : ChapterInfo) : Option St :=
  match st.fs.readFile filePath with
  | none => none
  | some content =>
    let newHeader := "# Chapter " ++ toString info.chapterNumber ++ ": " ++ info.name
    let content1 := String.mk (replaceChapterHeads newHeader.toList content.toList)
    some ⟨st.fs.writeFile filePath content1, st.log ++ [FsEv.writeEv filePath]⟩

/-- Characters kept verbatim by anchor slugs. -/
def isSlugChar (c : Char) : Bool :=
  ('a' ≤ c && c ≤ 'z') || ('0' ≤ c && c ≤ '9')

/-- UpdateManager::generateSubsectionAnchor: lower-case the title, replace
every run of non-alphanumerics with a dash, strip leading/trailing dashes. -/
def generateSubsectionAnchor (chapterNumber subsectionNumber : Int) (title : String) : String :=
  let lower := title.toList.map Char.toLower
  let squashed := (lower.foldl
    (fun (acc : List Char × Bool) c =>
      if isSlugChar c then (acc.1 ++ [c], false)
      else if acc.2 then acc else (acc.1 ++ ['-'], true))
    (([] : List Char), false)).1
  let clean := ((squashed.dropWhile (fun c => c = '-')).reverse.dropWhile
    (fun c => c = '-')).reverse
  toString chapterNumber ++ "-" ++ toString subsectionNumber ++ "-" ++ String.mk clean

/-- UpdateManager::parseSubsections: one SubsectionInfo per line matching
SUBSECTION_REGEX, numbered in file order; an unreadable file yields the
empty list. -/
def parseSubsections (content? : Option String) (chapterNumber : Int) : List SubsectionInfo :=
  match content? with
  | none => []
  | some content =>
    let lines := splitNlStr content
    (lines.enum.foldl
      (fun (acc : List SubsectionInfo) p =>
        match matchSubsectionHeadAt p.2.toList with
        | some (cap, _) =>
          let title := String.mk (qtTrim cap)
          let num : Int := (acc.length : Int) + 1
          acc ++ [{ title := title, chapterNumber := chapterNumber,
                    subsectionNumber := num, lineNumber := (p.1 : Int),
                    anchor := generateSubsectionAnchor chapterNumber num title }]
        | none => acc)
      [])

/-- UpdateManager::updateSubsectionsInFile: rewrite each line matching
SUBSECTION_REGEX to `## N.M: <title>` using the next entry of
`subsections`; once they are exhausted the remaining lines are copied. -/
def updateSubsectionsInFile (st : St) (filePath : String)
    (subsections : List SubsectionInfo) : Option St :=
  match st.fs.readFile filePath with
  | none => none
  | some content =>
    let lines := splitNlStr content
    let upd := lines.foldl
      (fun (acc : List String × Nat) line =>
        if h : acc.2 < subsections.length then
          match matchSubsectionHeadAt line.toList with
          | some _ =>
            let sub := subsections.get ⟨acc.2, h⟩
            (acc.1 ++ ["## " ++ toString sub.chapterNumber ++ "." ++
                       toString sub.subsectionNumber ++ ": " ++ sub.title],
             acc.2 + 1)
          | none => (acc.1 ++ [line], acc.2)
        else (acc.1 ++ [line], acc.2))
      (([] : List String), 0)
    some ⟨st.fs.writeFile filePath (joinNl upd.1), st.log ++ [FsEv.writeEv filePath]⟩

/-- UpdateManager::renumberSubsections: locate the chapter by number in the
scan cache, re-parse its subsections, renumber them `1..S`, rewrite. -/
def renumberSubsections (st : St) (chapters : List ChapterInfo)
    (chapterNumber : Int) : Option St :=
  match chapters.find? (fun ch => ch.chapterNumber == chapterNumber) with
  | none => none
  | some chapter =>
    let subsections := parseSubsections (st.fs.readFile chapter.filePath) chapterNumber
    let renumbered := subsections.enum.map (fun p =>
      { p.2 with
        subsectionNumber := (p.1 : Int) + 1,
        anchor := generateSubsectionAnchor chapterNumber ((p.1 : Int) + 1) p.2.title })
    updateSubsectionsInFile st chapter.filePath renumbered

/-! ### UpdateManager: renumbering pipeline -/

/-- UpdateManager::generateChapterFileName: `chapter_NN.md`, number
zero-padded to width 2 (QString::arg field width 2, fill '0'); the chapter
name parameter is unused in the C++. -/
def generateChapterFileName (chapterNumber : Int) (_chapterName : String) : String :=
  let s := toString chapterNumber
  "chapter_" ++ (if s.length < 2 then "0" ++ s else s) ++ ".md"

/-- The backup pass at the start of renumberChapters: a backup of every
scanned chapter, in scan order, failing fast. -/
def backupAll (st : St) : List ChapterInfo → Option St
  | [] => some st
  | ch :: rest =>
    match createBackup st ch.filePath with
    | none => none
    | some st1 => backupAll st1 rest

/-- The renumber loop of UpdateManager::renumberChapters, for chapters from
position `i` on (target number `i+1`): when the scanned number differs,
rename to the canonical file name if needed, rewrite the header, renumber
the subsections; otherwise the chapter is left untouched.  The fuel starts
above the list length and cannot run out. -/
def renumberLoopAux : Nat → List ChapterInfo → St → Nat → Option (List ChapterInfo × St)
  | 0, _, _, _ => none
  | fuel + 1, chapters, st, i =>
    if h : i < chapters.length then
      let chapter := chapters.get ⟨i, h⟩
      let newChapterNumber : Int := (i : Int) + 1
      if chapter.chapterNumber ≠ newChapterNumber then
        let chapter1 := { chapter with chapterNumber := newChapterNumber }
        let newFileName := generateChapterFileName newChapterNumber chapter1.name
        let newFilePath := newFileName   -- QDir(projectPath).filePath(...), relative in the model
        match
          (if chapter1.filePath ≠ newFilePath then
            (renameProjectFile st chapter1.filePath newFilePath).map (fun st1 =>
              (st1, { chapter1 with filePath := newFilePath, fileName := newFileName }))
          else some (st, chapter1)) with
        | none => none
        | some (st1, chapter2) =>
          let chapters1 := chapters.set i chapter2
          match updateChapterFile st1 chapter2.filePath chapter2 with
          | none => none
          | some st2 =>
            match renumberSubsections st2 chapters1 newChapterNumber with
            | none => none
            | some st3 => renumberLoopAux fuel chapters1 st3 (i + 1)
      else renumberLoopAux fuel chapters st (i + 1)
    else some (chapters, st)

def renumberLoop (chapters : List ChapterInfo) (st : St) : Option (List ChapterInfo × St) :=
  renumberLoopAux (chapters.length + 1) chapters st 0

/-- UpdateManager::renumberChapters.  It re-scans the project first
(analyzeProject clears and refills the per-project cache from disk), backs
up every chapter, then runs the renumber loop.  Returns the final cache and
state on success. -/
def renumberChapters (st : St) : Option (List ChapterInfo × St) :=
  let chapters := analyzeProject st.fs
  if chapters.isEmpty then some (chapters, st)
  else
    match backupAll st chapters with
    | none => none
    | some st1 => renumberLoop chapters st1

/-- UpdateManager::moveChapter.  `cache` is the current content of
m_projectChapters for the project.  The reorder mutates the cache, but
renumberChapters begins with analyzeProject, which clears and re-scans the
cache from disk, so the reordered list is discarded. -/
def moveChapter (cache : List ChapterInfo) (st : St) (fromIndex toIndex : Int) :
    Option (List ChapterInfo × St) :=
  if fromIndex < 0 ∨ fromIndex ≥ (cache.length : Int) ∨
     toIndex < 0 ∨ toIndex ≥ (cache.length : Int) then none
  else if fromIndex = toIndex then some (cache, st)
  else
    match cache.get? fromIndex.toNat with
    | none => none
    | some ch =>
      let _reordered := (cache.eraseIdx fromIndex.toNat).insertIdx toIndex.toNat ch
      -- the reordered cache is overwritten by analyzeProject inside
      -- renumberChapters before it is ever read
      renumberChapters st

/-! ### Spec-side readings used to state the claims -/

/-- Spec-side: the first-level header capture of a chapter file, as text. -/
def specFirstHeader (content : String) : Option String :=
  (firstLineMatch matchChapterHeadAt content.toList).map String.mk

/-- Spec-side: the number in a chapter file's first-level header, when the
header has the canonical form `# Chapter N: <title>`; this definition
follows the specification text, not the source. -/
def specHeaderNumber (content : String) : Option Int :=
  match firstLineMatch matchChapterHeadAt content.toList with
  | none => none
  | some cap =>
    let t := qtTrim cap
    if t.take 8 = "Chapter ".toList then
      let rest := t.drop 8
      let ds := rest.takeWhile Char.isDigit
      if 0 < ds.length ∧ (rest.drop ds.length).head? = some ':' then
        some (digitsToInt ds)
      else none
    else none

/-! ### ProjectManager: metadata persistence (ProjectManager.cpp)

ProjectManager::saveProject (line 103) delegates the metadata write to
ProjectManager::saveProjectMetadata (line 300).  For claim C5 the write is
modelled as the ordered list of filesystem operations the function
performs; `doc` stands for the serialized JSON document (whose `modified`
timestamp was refreshed in memory just before the write). -/

inductive MetaOp where
  | truncateOp (path : String)            -- QFile::open(QIODevice::WriteOnly) creates/truncates
  | writeAllOp (path data : String)       -- file.write(doc.toJson())
  | renameOp (oldPath newPath : String)   -- available to the spec-side pattern; never emitted by the code
  deriving Repr, DecidableEq

/-- The filesystem operations of ProjectManager::saveProjectMetadata, in
order: it opens `project.json` itself for writing (truncating it) and
writes the document into it.  No temporary file and no rename appear. -/
def saveProjectMetadataOps (doc : String) : List MetaOp :=
  [MetaOp.truncateOp "project.json", MetaOp.writeAllOp "project.json" doc]

def runMetaOp (fs : FS) : MetaOp → FS
  | MetaOp.truncateOp p => fs.writeFile p ""
  | MetaOp.writeAllOp p d => fs.writeFile p d
  | MetaOp.renameOp oldPath newPath =>
    match fs.readFile oldPath with
    | none => fs
    | some c => (fs.removeFile oldPath).writeFile newPath c

/-- Run a prefix of the operation list; stopping early models an I/O
failure in the middle of the write. -/
def runMetaOps (fs : FS) (ops : List MetaOp) : FS := ops.foldl runMetaOp fs

/-- Whether an operation modifies the file at `target`. -/
def MetaOp.touches (op : MetaOp) (target : String) : Bool :=
  match op with
  | MetaOp.truncateOp p => p == target
  | MetaOp.writeAllOp p _ => p == target
  | MetaOp.renameOp oldPath newPath => oldPath == target || newPath == target

/-- Spec-side: the write-to-temp-then-rename pattern the specification
prescribes: every operation before the last leaves `target` untouched, and
the last operation renames some other path onto `target`. -/
def specAtomicReplace (ops : List MetaOp) (target : String) : Bool :=
  match ops.getLast? with
  | some (MetaOp.renameOp src dst) =>
    dst == target && src != target && ops.dropLast.all (fun op => !op.touches target)
  | _ => false

/-! ### AutoSaveManager (AutoSaveManager.cpp, AutoSaveManager.h)

The controller is single-threaded and timer-driven.  Time is an abstract
clock in whole seconds.  Editors (EditorWidget) are identified by a
numeric id standing for the C++ pointer; their buffer content and whether
EditorWidget::saveToFile would succeed live in an environment the
controller consults when saving.  Timers are modelled by their absolute
due time: the one-shot typing-pause timer holds its expiry instant, the
recurring auto-save timer holds its next fire instant. -/

def DEFAULT_INTERVAL : Int := 300
def MIN_INTERVAL : Int := 60
def MAX_INTERVAL : Int := 3600
def TYPING_PAUSE_INTERVAL : Int := 10
def MIN_TYPING_PAUSE : Int := 5
def MAX_TYPING_PAUSE : Int := 60

/-- The part of an EditorWidget the controller observes. -/
structure EditorSt where
  content : String
  saveOk : Bool
  deriving Repr, DecidableEq

abbrev EdEnv := List (Nat × EditorSt)

def EdEnv.lookupEd (env : EdEnv) (ed : Nat) : Option EditorSt :=
  (env.find? (fun e => e.1 == ed)).map (fun e => e.2)

/-- AutoSaveManager::EditorInfo (the editor pointer is the map key). -/
structure EditorInfo where
  filePath : String
  lastSaved : Nat
  hasUnsavedChanges : Bool
  deriving Repr, DecidableEq

/-- Observable effects: file writes through EditorWidget::saveToFile,
emitted signals, and QSettings persistence. -/
inductive ASEv where
  | fileWrite (path content : String)
  | autoSaveCompleted (n : Nat)
  | autoSaveFailed (path msg : String)
  | statusChanged (s : String)
  | settingsSaved (interval pause : Int) (enabled : Bool)
  deriving Repr, DecidableEq

structure ASState where
  tracked : List (Nat × EditorInfo)
  intervalSeconds : Int
  typingPauseSeconds : Int
  enabled : Bool
  periodicDue : Option Nat
  pauseDue : Option Nat
  lastAutoSave : Option Nat
  deriving Repr, DecidableEq

/-- QHash<EditorWidget*, EditorInfo> assignment: replace the entry or
append a new one.  (QHash iterates in an arbitrary order; the model keeps
registration order, which is how the save loops are described.) -/
def hashInsert (l : List (Nat × EditorInfo)) (k : Nat) (v : EditorInfo) :
    List (Nat × EditorInfo) :=
  match l with
  | [] => [(k, v)]
  | e :: rest => if e.1 == k then (k, v) :: rest else e :: hashInsert rest k v

def trackedLookup (st : ASState) (ed : Nat) : Option EditorInfo :=
  (st.tracked.find? (fun e => e.1 == ed)).map (fun e => e.2)

/-- The AutoSaveManager constructor at clock 0: loadSettings reads the
stored values and falls back to the defaults when they are out of range;
the recurring timer starts when enabled. -/
def mkAutoSaveManager (storedInterval storedPause : Int) (storedEnabled : Bool) : ASState :=
  let interval :=
    if storedInterval < MIN_INTERVAL ∨ storedInterval > MAX_INTERVAL then DEFAULT_INTERVAL
    else storedInterval
  let pause :=
    if storedPause < MIN_TYPING_PAUSE ∨ storedPause > MAX_TYPING_PAUSE then TYPING_PAUSE_INTERVAL
    else storedPause
  { tracked := []
    intervalSeconds := interval
    typingPauseSeconds := pause
    enabled := storedEnabled
    periodicDue := if storedEnabled then some interval.toNat else none
    pauseDue := none
    lastAutoSave := none }

/-- AutoSaveManager::registerEditor: the new entry starts with
`hasUnsavedChanges = false` and `lastSaved = now`, whatever the editor's
actual unsaved-changes state is. -/
def registerEditor (st : ASState) (ed : Nat) (filePath : String) (now : Nat) : ASState :=
  { st with tracked :=
      hashInsert st.tracked ed ⟨filePath, now, false⟩ }

/-- AutoSaveManager::needsSaving. -/
def needsSaving (st : ASState) (ed : Nat) : Bool :=
  ((trackedLookup st ed).map (fun i => i.hasUnsavedChanges)).getD false

/-- AutoSaveManager::markAsSaved. -/
def markAsSaved (st : ASState) (ed : Nat) (now : Nat) : ASState :=
  { st with tracked := st.tracked.map (fun e =>
      if e.1 == ed then (e.1, { e.2 with hasUnsavedChanges := false, lastSaved := now })
      else e) }

/-- AutoSaveManager::saveEditor: look the editor up, write through
EditorWidget::saveToFile, mark saved on success, emit autoSaveFailed
otherwise.  Returns (state, events, success). -/
def saveEditor (st : ASState) (env : EdEnv) (ed : Nat) (now : Nat) :
    ASState × List ASEv × Bool :=
  match trackedLookup st ed with
  | none => (st, [], false)
  | some info =>
    match env.lookupEd ed with
    | none => (st, [], false)   -- a registered editor is always live (destroyed editors unregister)
    | some e =>
      if e.saveOk then
        (markAsSaved st ed now, [ASEv.fileWrite info.filePath e.content], true)
      else
        (st, [ASEv.autoSaveFailed info.filePath "Failed to save file"], false)

/-- The dirty-only save loop shared by performAutoSave and saveAll: iterate
over the tracked keys, saving exactly the entries whose flag is set.
Returns (state, events, saved count). -/
def savePass (st : ASState) (env : EdEnv) (now : Nat) : ASState × List ASEv × Nat :=
  (st.tracked.map Prod.fst).foldl
    (fun acc ed =>
      if needsSaving acc.1 ed then
        let r := saveEditor acc.1 env ed now
        (r.1, acc.2.1 ++ r.2.1, if r.2.2 then acc.2.2 + 1 else acc.2.2)
      else acc)
    (st, [], 0)

/-- AutoSaveManager::performAutoSave (the recurring fallback timer's
slot). -/
def performAutoSave (st : ASState) (env : EdEnv) (now : Nat) : ASState × List ASEv :=
  if !st.enabled then (st, [])
  else
    let r := savePass st env now
    if 0 < r.2.2 then
      ({ r.1 with lastAutoSave := some now },
       r.2.1 ++ [ASEv.autoSaveCompleted r.2.2,
                 ASEv.statusChanged ("Auto-saved " ++ toString r.2.2 ++ " files (interval)")])
    else (r.1, r.2.1)

/-- AutoSaveManager::saveAll (invoked on typing pause). -/
def saveAll (st : ASState) (env : EdEnv) (now : Nat) : ASState × List ASEv :=
  let r := savePass st env now
  if 0 < r.2.2 then
    ({ r.1 with lastAutoSave := some now },
     r.2.1 ++ [ASEv.autoSaveCompleted r.2.2,
               ASEv.statusChanged ("Auto-saved " ++ toString r.2.2 ++ " files after typing pause")])
  else (r.1, r.2.1)

/-- AutoSaveManager::saveAllOnExit: saves every tracked editor, dirty or
not, and reports once at the end. -/
def saveAllOnExit (st : ASState) (env : EdEnv) (now : Nat) : ASState × List ASEv :=
  let r := (st.tracked.map Prod.fst).foldl
    (fun (acc : ASState × List ASEv × Nat) ed =>
      let s := saveEditor acc.1 env ed now
      (s.1, acc.2.1 ++ s.2.1, if s.2.2 then acc.2.2 + 1 else acc.2.2))
    (st, [], 0)
  if 0 < r.2.2 then
    (r.1, r.2.1 ++ [ASEv.statusChanged ("Exit: Saved " ++ toString r.2.2 ++ " files")])
  else (r.1, r.2.1)

/-- AutoSaveManager::onEditorModified: when enabled and the sender is
tracked, set the dirty flag and restart the one-shot typing-pause timer to
expire `typingPauseSeconds` from now. -/
def onEditorModified (st : ASState) (ed : Nat) (now : Nat) : ASState :=
  if !st.enabled then st
  else
    match trackedLookup st ed with
    | none => st
    | some info =>
      { st with
        tracked := hashInsert st.tracked ed { info with hasUnsavedChanges := true },
        pauseDue := some (now + st.typingPauseSeconds.toNat) }

/-- AutoSaveManager::onTypingPaused. -/
def onTypingPaused (st : ASState) (env : EdEnv) (now : Nat) : ASState × List ASEv :=
  if !st.enabled then (st, [])
  else saveAll st env now

/-- AutoSaveManager::setAutoSaveInterval: a value outside
[MIN_INTERVAL, MAX_INTERVAL] is rejected before anything is changed;
otherwise store it, restart the recurring timer when enabled, persist the
settings and report. -/
def setAutoSaveInterval (st : ASState) (seconds : Int) (now : Nat) : ASState × List ASEv :=
  if seconds < MIN_INTERVAL ∨ seconds > MAX_INTERVAL then (st, [])
  else
    let st1 := { st with intervalSeconds := seconds }
    let st2 := if st1.enabled then { st1 with periodicDue := some (now + seconds.toNat) } else st1
    (st2, [ASEv.settingsSaved seconds st.typingPauseSeconds st.enabled,
           ASEv.statusChanged ("Auto-save interval set to " ++ toString seconds ++ " seconds")])

/-- AutoSaveManager::setTypingPauseInterval: a value outside
[MIN_TYPING_PAUSE, MAX_TYPING_PAUSE] is rejected before anything is
changed; the running timers are untouched either way. -/
def setTypingPauseInterval (st : ASState) (seconds : Int) (_now : Nat) : ASState × List ASEv :=
  if seconds < MIN_TYPING_PAUSE ∨ seconds > MAX_TYPING_PAUSE then (st, [])
  else
    ({ st with typingPauseSeconds := seconds },
     [ASEv.settingsSaved st.intervalSeconds seconds st.enabled,
      ASEv.statusChanged ("Typing pause auto-save set to " ++ toString seconds ++ " seconds")])

/-- One second of simulated time `t`: deliver the external `modified`
events stamped `t`, then fire the one-shot typing-pause timer if it is due
(clearing it first), then the recurring timer if it is due (rescheduling
it first).  No two timers are due at once in the scenarios considered. -/
def simStep (env : EdEnv) (mods : List (Nat × Nat)) (t : Nat) (st : ASState) :
    ASState × List ASEv :=
  let stA := (mods.filter (fun m => m.1 == t)).foldl (fun s m => onEditorModified s m.2 t) st
  let rB :=
    if stA.pauseDue == some t then
      onTypingPaused { stA with pauseDue := none } env t
    else (stA, [])
  let rC :=
    if rB.1.periodicDue == some t then
      performAutoSave { rB.1 with periodicDue := some (t + rB.1.intervalSeconds.toNat) } env t
    else (rB.1, [])
  (rC.1, rB.2 ++ rC.2)

/-- Run the controller from clock 0 through `horizon` seconds inclusive,
collecting time-stamped events.  `mods` lists the instants at which each
editor emits `modified`. -/
def simulate (env : EdEnv) (mods : List (Nat × Nat)) (horizon : Nat) (st : ASState) :
    ASState × List (Nat × ASEv) :=
  (List.range (horizon + 1)).foldl
    (fun acc t =>
      let r := simStep env mods t acc.1
      (r.1, acc.2 ++ r.2.map (fun e => (t, e))))
    (st, [])

/-! ### Concrete project states used by the claims -/

/-- Scenario of claim C1 (spec §8 scenario 2): three canonical chapters. -/
def moveDemoFs : FS :=
  [("chapter_01.md", "# Chapter 1: A\n\nAlpha.\n"),
   ("chapter_02.md", "# Chapter 2: B\n\nBravo.\n"),
   ("chapter_03.md", "# Chapter 3: C\n\nCharlie.\n")]

/-- A chapter whose file name already carries its position number but
whose header carries a different number (claim C2). -/
def mismatchFs : FS := [("chapter_01.md", "# Chapter 5: Foo\n\nbody\n")]

/-- A project with one skipped chapter (file number equals position) and
one renumbered chapter (claim C2, amended form). -/
def mixedFs : FS :=
  [("chapter_01.md", "# Chapter 9: Bar\n\nBody one.\n"),
   ("chapter_03.md", "# Chapter 2: Baz\n\nBody two.\n")]

/-- Two chapters that both need renumbering (claim C4). -/
def shiftedFs : FS :=
  [("chapter_02.md", "# Chapter 2: B\n\nBravo.\n"),
   ("chapter_03.md", "# Chapter 3: C\n\nCharlie.\n")]

/-- A single misnumbered chapter (claim C6). -/
def loneFs : FS := [("chapter_02.md", "# X\n\nBody.\n")]

/-- A single misnumbered chapter, different content (claim C6, amended
form). -/
def loneFsB : FS := [("chapter_03.md", "# Y\n\nStuff.\n")]

/-- One live editor, id 1 (claim C7). -/
def demoEnv : EdEnv := [(1, { content := "Draft text.", saveOk := true })]

/-- The controller of claim C7: defaults (300 s fallback, 10 s pause),
enabled, one editor registered at clock 0. -/
def demoAS : ASState := registerEditor (mkAutoSaveManager 300 10 true) 1 "f.md" 0


/-- Backup-pass events: the removals and copies emitted by createBackup. -/
def isBackupEv : FsEv → Bool
  | FsEv.removeEv _ => true
  | FsEv.copyEv _ _ => true
  | _ => false

/-- Per-chapter event blocks: each processed chapter contributes either
`[write p, write p]` (header rewrite then subsection rewrite, no rename
needed) or `[rename old p, write p, write p]` — the rename, when present,
immediately precedes both content writes of that same chapter, and all
three target the same (final) path. -/
def chapterBlocksOk : List FsEv → Bool
  | [] => true
  | FsEv.renameEv _ p :: FsEv.writeEv q :: FsEv.writeEv r :: rest =>
    p == q && p == r && chapterBlocksOk rest
  | FsEv.writeEv q :: FsEv.writeEv r :: rest => q == r && chapterBlocksOk rest
  | _ => false

/-- The event-log shape of one renumber operation: an initial backup pass
followed by per-chapter blocks. -/
def renumberLogOk (log : List FsEv) : Bool :=
  chapterBlocksOk (log.dropWhile isBackupEv)

/-- Registry with two sessions, exactly one dirty (claim C8). -/
def demoExitSt : ASState :=
  { tracked := [(1, ⟨"a.md", 0, true⟩), (2, ⟨"b.md", 0, false⟩)]
    intervalSeconds := 300
    typingPauseSeconds := 10
    enabled := true
    periodicDue := some 300
    pauseDue := none
    lastAutoSave := none }

def demoExitEnv : EdEnv := [(1, ⟨"Alpha", true⟩), (2, ⟨"Beta", true⟩)]



/-! ### Helper lemmas -/

theorem readFile_cons_ne (e : String × String) (rest : FS) (p : String)
    (h : ¬ e.1 = p) :
    FS.readFile (e :: rest) p = FS.readFile rest p := by
  have hb : (e.1 == p) = false := beq_eq_false_iff_ne.mpr h
  simp [FS.readFile, List.find?, hb]

theorem readFile_cons_eq (e : String × String) (rest : FS) (p : String)
    (h : e.1 = p) :
    FS.readFile (e :: rest) p = some e.2 := by
  have hb : (e.1 == p) = true := by simp [h]
  simp [FS.readFile, List.find?, hb]

theorem readFile_writeFile_ne (fs : FS) (p q c : String) (h : p ≠ q) :
    (fs.writeFile q c).readFile p = fs.readFile p := by
  induction fs with
  | nil =>
    unfold FS.writeFile
    rw [readFile_cons_ne _ _ _ (fun hc => h hc.symm)]
  | cons e rest ih =>
    unfold FS.writeFile
    by_cases he : e.1 = q
    · rw [if_pos (by simp [he])]
      rw [readFile_cons_ne _ _ _ (fun hc => h hc.symm),
          readFile_cons_ne _ _ _ (fun hc => h (by rw [← hc, he]))]
    · rw [if_neg (by simp [he])]
      by_cases hep : e.1 = p
      · rw [readFile_cons_eq _ _ _ hep, readFile_cons_eq _ _ _ hep]
      · rw [readFile_cons_ne _ _ _ hep, readFile_cons_ne _ _ _ hep]
        exact ih

theorem readFile_removeFile_ne (fs : FS) (p q : String) (h : p ≠ q) :
    (fs.removeFile q).readFile p = fs.readFile p := by
  induction fs with
  | nil => rfl
  | cons e rest ih =>
    unfold FS.removeFile
    rw [List.filter_cons]
    by_cases he : e.1 = q
    · rw [if_neg (by simp [he])]
      rw [readFile_cons_ne _ _ _ (fun hc => h (by rw [← hc, he]))]
      exact ih
    · rw [if_pos (by simp [he])]
      by_cases hep : e.1 = p
      · rw [readFile_cons_eq _ _ _ hep, readFile_cons_eq _ _ _ hep]
      · rw [readFile_cons_ne _ _ _ hep, readFile_cons_ne _ _ _ hep]
        exact ih

theorem createBackup_log {st st1 : St} {p : String}
    (h : createBackup st p = some st1) :
    ∃ evs, st1.log = st.log ++ evs ∧ evs.all isBackupEv = true := by
  simp only [createBackup] at h
  split at h
  · exact absurd h (by simp)
  · split at h
    · simp only [Option.some.injEq] at h
      subst h
      exact ⟨[FsEv.removeEv (p ++ BACKUP_SUFFIX), FsEv.copyEv p (p ++ BACKUP_SUFFIX)],
             by simp, by simp [isBackupEv]⟩
    · simp only [Option.some.injEq] at h
      subst h
      exact ⟨[FsEv.copyEv p (p ++ BACKUP_SUFFIX)], by simp, by simp [isBackupEv]⟩

theorem backupAll_log {st st1 : St} {chs : List ChapterInfo}
    (h : backupAll st chs = some st1) :
    ∃ evs, st1.log = st.log ++ evs ∧ evs.all isBackupEv = true := by
  induction chs generalizing st with
  | nil =>
    simp only [backupAll, Option.some.injEq] at h
    subst h
    exact ⟨[], by simp, by simp⟩
  | cons ch rest ih =>
    simp only [backupAll] at h
    split at h
    · exact absurd h (by simp)
    next stMid hcb =>
      obtain ⟨evs1, he1, ha1⟩ := createBackup_log hcb
      obtain ⟨evs2, he2, ha2⟩ := ih h
      refine ⟨evs1 ++ evs2, ?_, ?_⟩
      · rw [he2, he1, List.append_assoc]
      · simp only [List.all_append, ha1, ha2, Bool.and_self]

theorem renameProjectFile_log {st st1 : St} {oldPath newPath : String}
    (hne : oldPath ≠ newPath)
    (h : renameProjectFile st oldPath newPath = some st1) :
    st1.log = st.log ++ [FsEv.renameEv oldPath newPath] := by
  unfold renameProjectFile at h
  rw [if_neg hne] at h
  split at h
  · exact absurd h (by simp)
  · split at h
    · exact absurd h (by simp)
    · simp only [Option.some.injEq] at h
      subst h
      rfl

theorem updateChapterFile_log {st st1 : St} {p : String} {info : ChapterInfo}
    (h : updateChapterFile st p info = some st1) :
    st1.log = st.log ++ [FsEv.writeEv p] := by
  unfold updateChapterFile at h
  split at h
  · exact absurd h (by simp)
  · simp only [Option.some.injEq] at h
    subst h
    rfl

theorem updateSubsectionsInFile_log {st st1 : St} {p : String}
    {subs : List SubsectionInfo}
    (h : updateSubsectionsInFile st p subs = some st1) :
    st1.log = st.log ++ [FsEv.writeEv p] := by
  unfold updateSubsectionsInFile at h
  split at h
  · exact absurd h (by simp)
  · simp only [Option.some.injEq] at h
    subst h
    rfl

theorem renumberSubsections_log {st st1 : St} {chapters : List ChapterInfo}
    {n : Int} (h : renumberSubsections st chapters n = some st1) :
    ∃ ch, chapters.find? (fun c => c.chapterNumber == n) = some ch ∧
      st1.log = st.log ++ [FsEv.writeEv ch.filePath] := by
  unfold renumberSubsections at h
  split at h
  · exact absurd h (by simp)
  next ch hfind => exact ⟨ch, hfind, updateSubsectionsInFile_log h⟩

theorem find?_at_first_true {α} (p : α → Bool) (l : List α) (k : Nat)
    (hk : k < l.length)
    (hbefore : ∀ j (hj : j < l.length), j < k → p (l.get ⟨j, hj⟩) = false)
    (hat : p (l.get ⟨k, hk⟩) = true) :
    l.find? p = some (l.get ⟨k, hk⟩) := by
  induction l generalizing k with
  | nil => exact absurd hk (by simp)
  | cons x xs ih =>
    cases k with
    | zero =>
      have hx : p x = true := by simpa using hat
      simp [List.find?, hx]
    | succ k =>
      have hx : p x = false := hbefore 0 (by simp) (by omega)
      have hk2 : k < xs.length := by simpa using hk
      have := ih k hk2
        (fun j hj hlt => hbefore (j + 1) (by simpa using hj) (by omega))
        (by simpa using hat)
      simp [List.find?, hx]
      simpa using this

theorem chapterBlocksOk_cons_writes {p : String} {rest : List FsEv}
    (h : chapterBlocksOk rest = true) :
    chapterBlocksOk (FsEv.writeEv p :: FsEv.writeEv p :: rest) = true := by
  simp [chapterBlocksOk, h]

theorem chapterBlocksOk_cons_rename {old p : String} {rest : List FsEv}
    (h : chapterBlocksOk rest = true) :
    chapterBlocksOk (FsEv.renameEv old p :: FsEv.writeEv p :: FsEv.writeEv p :: rest)
      = true := by
  simp [chapterBlocksOk, h]

theorem renumberLoopAux_log :
    ∀ (fuel : Nat) (chapters : List ChapterInfo) (st : St) (i : Nat),
    (∀ j (hj : j < chapters.length), j < i →
       (chapters.get ⟨j, hj⟩).chapterNumber = (j : Int) + 1) →
    ∀ res, renumberLoopAux fuel chapters st i = some res →
    ∃ blocks, res.2.log = st.log ++ blocks ∧ chapterBlocksOk blocks = true := by
  intro fuel
  induction fuel with
  | zero =>
    intro chapters st i hcan res h
    exact absurd h (by simp [renumberLoopAux])
  | succ fuel ih =>
    intro chapters st i hcan res h
    simp only [renumberLoopAux] at h
    split at h
    case isTrue hi =>
      split at h
      case isTrue hne =>
        split at h
        · exact absurd h (by simp)
        next st1 chapter2 hinner =>
          split at h
          · exact absurd h (by simp)
          next st2 hupd =>
            split at h
            · exact absurd h (by simp)
            next st3 hsubs =>
              -- facts about st1 and chapter2 from the rename stage
              have hstage :
                  (chapter2.filePath = generateChapterFileName ((i : Int) + 1)
                      (chapters.get ⟨i, hi⟩).name ∧
                   chapter2.chapterNumber = (i : Int) + 1) ∧
                  (st1.log = st.log ++
                      [FsEv.renameEv (chapters.get ⟨i, hi⟩).filePath
                        (generateChapterFileName ((i : Int) + 1)
                          (chapters.get ⟨i, hi⟩).name)] ∨
                   st1.log = st.log) := by
                split at hinner
                next hrn =>
                  rw [Option.map_eq_some'] at hinner
                  obtain ⟨st0, hrn2, heq2⟩ := hinner
                  injection heq2 with h1 h2
                  subst h1
                  subst h2
                  refine ⟨⟨rfl, rfl⟩, Or.inl ?_⟩
                  exact renameProjectFile_log hrn hrn2
                next hrn =>
                  simp only [Option.some.injEq, Prod.mk.injEq] at hinner
                  obtain ⟨h1, h2⟩ := hinner
                  subst h1
                  subst h2
                  push_neg at hrn
                  exact ⟨⟨hrn, rfl⟩, Or.inr rfl⟩
              obtain ⟨⟨hpath, hnum⟩, hrlog⟩ := hstage
              have hupdlog := updateChapterFile_log hupd
              obtain ⟨ch, hfind, hsubslog⟩ := renumberSubsections_log hsubs
              -- the find? in renumberSubsections locates chapter2 itself
              have hlen : (chapters.set i chapter2).length = chapters.length := by
                simp
              have hget : (chapters.set i chapter2).get ⟨i, by omega⟩ = chapter2 := by
                simp [List.get_eq_getElem, List.getElem_set]
              have hfind2 : (chapters.set i chapter2).find?
                  (fun c => c.chapterNumber == (i : Int) + 1) = some chapter2 := by
                have := find?_at_first_true
                  (fun c => c.chapterNumber == (i : Int) + 1)
                  (chapters.set i chapter2) i (by omega)
                  (fun j hj hlt => by
                    have hji : ¬ i = j := by omega
                    have hcj := hcan j (by omega) hlt
                    simp only [List.get_eq_getElem] at hcj
                    simp only [List.get_eq_getElem, List.getElem_set, hji, if_false]
                    simp [hcj]
                    omega)
                  (by rw [hget]; simp [hnum])
                rw [hget] at this
                exact this
              have hch : ch = chapter2 := by
                rw [hfind2] at hfind
                injection hfind with hv
                exact hv.symm
              rw [hch] at hsubslog
              obtain ⟨blocks, hblog, hbok⟩ := ih (chapters.set i chapter2) st3 (i + 1)
                (fun j hj hlt => by
                  by_cases hji : j = i
                  · subst hji
                    have hgj : (chapters.set j chapter2).get ⟨j, hj⟩ = chapter2 := by
                      simp [List.get_eq_getElem, List.getElem_set]
                    rw [hgj, hnum]
                  · have hj2 : j < chapters.length := by simpa using hj
                    have hij : ¬ i = j := fun hc => hji hc.symm
                    have hgj : (chapters.set i chapter2).get ⟨j, hj⟩
                        = chapters.get ⟨j, hj2⟩ := by
                      simp [List.get_eq_getElem, List.getElem_set, hij, if_false]
                    rw [hgj]
                    exact hcan j hj2 (by omega))
                res h
              rcases hrlog with hrlog | hrlog
              · refine ⟨FsEv.renameEv (chapters.get ⟨i, hi⟩).filePath chapter2.filePath ::
                  FsEv.writeEv chapter2.filePath :: FsEv.writeEv chapter2.filePath ::
                  blocks, ?_, ?_⟩
                · rw [hblog, hsubslog, hupdlog, hrlog, hpath]
                  simp
                · exact chapterBlocksOk_cons_rename hbok
              · refine ⟨FsEv.writeEv chapter2.filePath ::
                  FsEv.writeEv chapter2.filePath :: blocks, ?_, ?_⟩
                · rw [hblog, hsubslog, hupdlog, hrlog]
                  simp
                · exact chapterBlocksOk_cons_writes hbok
      case isFalse heq =>
        refine ih chapters st (i + 1)
          (fun j hj hlt => ?_) res h
        by_cases hji : j = i
        · subst hji
          push_neg at heq
          exact heq
        · exact hcan j hj (by omega)
    case isFalse hi =>
      simp only [Option.some.injEq] at h
      subst h
      exact ⟨[], by simp, by simp [chapterBlocksOk]⟩

theorem dropWhile_append_backup {evs rest : List FsEv}
    (ha : evs.all isBackupEv = true) :
    (evs ++ rest).dropWhile isBackupEv = rest.dropWhile isBackupEv := by
  induction evs with
  | nil => rfl
  | cons e es ih =>
    simp only [List.all_cons, Bool.and_eq_true] at ha
    simp [List.dropWhile, ha.1, ih ha.2]

theorem blocks_dropWhile_id {blocks : List FsEv}
    (h : chapterBlocksOk blocks = true) :
    blocks.dropWhile isBackupEv = blocks := by
  match blocks with
  | [] => rfl
  | FsEv.renameEv a b :: rest => simp [List.dropWhile, isBackupEv]
  | FsEv.writeEv p :: rest => simp [List.dropWhile, isBackupEv]
  | FsEv.removeEv p :: rest => simp [chapterBlocksOk] at h
  | FsEv.copyEv a b :: rest => simp [chapterBlocksOk] at h

theorem createBackup_reads {st st1 : St} {fp : String}
    (h : createBackup st fp = some st1) (p : String)
    (hp : p ≠ fp ++ BACKUP_SUFFIX) :
    st1.fs.readFile p = st.fs.readFile p := by
  simp only [createBackup] at h
  split at h
  · exact absurd h (by simp)
  · split at h
    · simp only [Option.some.injEq] at h
      subst h
      simp only []
      rw [readFile_writeFile_ne _ _ _ _ hp, readFile_removeFile_ne _ _ _ hp]
    · simp only [Option.some.injEq] at h
      subst h
      simp only []
      rw [readFile_writeFile_ne _ _ _ _ hp]

theorem backupAll_reads {st st1 : St} {chs : List ChapterInfo}
    (h : backupAll st chs = some st1) (p : String)
    (hp : ∀ q, p ≠ q ++ BACKUP_SUFFIX) :
    st1.fs.readFile p = st.fs.readFile p := by
  induction chs generalizing st with
  | nil =>
    simp only [backupAll, Option.some.injEq] at h
    subst h
    rfl
  | cons ch rest ih =>
    simp only [backupAll] at h
    split at h
    · exact absurd h (by simp)
    next stMid hcb =>
      rw [ih h, createBackup_reads hcb p (hp ch.filePath)]

theorem renumberLoopAux_all_canonical :
    ∀ (fuel : Nat) (chapters : List ChapterInfo) (st : St) (i : Nat),
    (∀ j (hj : j < chapters.length), i ≤ j →
       (chapters.get ⟨j, hj⟩).chapterNumber = (j : Int) + 1) →
    chapters.length < fuel + i → 0 < fuel →
    renumberLoopAux fuel chapters st i = some (chapters, st) := by
  intro fuel
  induction fuel with
  | zero =>
    intro chapters st i hcan hfuel hpos
    exact absurd hpos (by omega)
  | succ fuel ih =>
    intro chapters st i hcan hfuel hpos
    simp only [renumberLoopAux]
    split
    case isTrue hi =>
      have hc := hcan i hi (Nat.le_refl i)
      rw [if_neg (fun hne => hne hc)]
      exact ih chapters st (i + 1)
        (fun j hj hij => hcan j hj (by omega)) (by omega) (by omega)
    case isFalse hi => rfl

theorem renumber_canonical_touches_only_backups (st : St)
    (res : List ChapterInfo × St)
    (hcanon : ∀ j (hj : j < (analyzeProject st.fs).length),
        ((analyzeProject st.fs).get ⟨j, hj⟩).chapterNumber = (j : Int) + 1)
    (h : renumberChapters st = some res)
    (p : String) (hp : ∀ q, p ≠ q ++ BACKUP_SUFFIX) :
    res.2.fs.readFile p = st.fs.readFile p := by
  simp only [renumberChapters] at h
  split at h
  · simp only [Option.some.injEq] at h
    subst h
    rfl
  · split at h
    · exact absurd h (by simp)
    next st1 hback =>
      unfold renumberLoop at h
      rw [renumberLoopAux_all_canonical ((analyzeProject st.fs).length + 1)
        (analyzeProject st.fs) st1 0 (fun j hj hij => hcanon j hj) (by omega)
        (by omega)] at h
      simp only [Option.some.injEq] at h
      subst h
      exact backupAll_reads hback p hp

theorem renameProjectFile_reads {st st1 : St} {oldPath newPath : String}
    (h : renameProjectFile st oldPath newPath = some st1)
    (P : String) (ho : P ≠ oldPath) (hn : P ≠ newPath) :
    st1.fs.readFile P = st.fs.readFile P := by
  unfold renameProjectFile at h
  split at h
  · simp only [Option.some.injEq] at h
    subst h
    rfl
  · split at h
    · exact absurd h (by simp)
    · split at h
      · exact absurd h (by simp)
      · simp only [Option.some.injEq] at h
        subst h
        simp only []
        rw [readFile_writeFile_ne _ _ _ _ hn, readFile_removeFile_ne _ _ _ ho]

theorem updateChapterFile_reads {st st1 : St} {fp : String} {info : ChapterInfo}
    (h : updateChapterFile st fp info = some st1)
    (P : String) (hp : P ≠ fp) :
    st1.fs.readFile P = st.fs.readFile P := by
  unfold updateChapterFile at h
  split at h
  · exact absurd h (by simp)
  · simp only [Option.some.injEq] at h
    subst h
    simp only []
    rw [readFile_writeFile_ne _ _ _ _ hp]

theorem updateSubsectionsInFile_reads {st st1 : St} {fp : String}
    {subs : List SubsectionInfo}
    (h : updateSubsectionsInFile st fp subs = some st1)
    (P : String) (hp : P ≠ fp) :
    st1.fs.readFile P = st.fs.readFile P := by
  unfold updateSubsectionsInFile at h
  split at h
  · exact absurd h (by simp)
  · simp only [Option.some.injEq] at h
    subst h
    simp only []
    rw [readFile_writeFile_ne _ _ _ _ hp]

theorem renumberSubsections_reads {st st1 : St} {chapters : List ChapterInfo}
    {n : Int} (h : renumberSubsections st chapters n = some st1)
    (P : String)
    (hp : ∀ ch, chapters.find? (fun c => c.chapterNumber == n) = some ch →
       P ≠ ch.filePath) :
    st1.fs.readFile P = st.fs.readFile P := by
  unfold renumberSubsections at h
  split at h
  · exact absurd h (by simp)
  next ch hfind => exact updateSubsectionsInFile_reads h P (hp ch hfind)

theorem renumberLoopAux_preserves :
    ∀ (fuel : Nat) (chapters : List ChapterInfo) (st : St) (i : Nat)
      (i0 : Nat) (hi0 : i0 < chapters.length) (P : String),
    (chapters.get ⟨i0, hi0⟩).fileName = P →
    (chapters.get ⟨i0, hi0⟩).chapterNumber = (i0 : Int) + 1 →
    extractChapterNumber P = (i0 : Int) + 1 →
    (∀ k, k < chapters.length →
       extractChapterNumber (generateChapterFileName ((k : Int) + 1) "") = (k : Int) + 1) →
    (∀ j (hj : j < chapters.length), i ≤ j → j ≠ i0 →
       (chapters.get ⟨j, hj⟩).fileName ≠ P ∧
       (chapters.get ⟨j, hj⟩).filePath = (chapters.get ⟨j, hj⟩).fileName) →
    (∀ j (hj : j < chapters.length), j < i →
       (chapters.get ⟨j, hj⟩).chapterNumber = (j : Int) + 1) →
    ∀ res, renumberLoopAux fuel chapters st i = some res →
    res.2.fs.readFile P = st.fs.readFile P := by
  intro fuel
  induction fuel with
  | zero =>
    intro chapters st i i0 hi0 P hname hnum0 hextP hround hdist hcan res h
    exact absurd h (by simp [renumberLoopAux])
  | succ fuel ih =>
    intro chapters st i i0 hi0 P hname hnum0 hextP hround hdist hcan res h
    simp only [renumberLoopAux] at h
    split at h
    case isTrue hi =>
      split at h
      case isTrue hne =>
        -- i ≠ i0, else the chapter would have its target number already
        have hii0 : i ≠ i0 := by
          intro hc
          subst hc
          exact hne hnum0
        split at h
        · exact absurd h (by simp)
        next st1 chapter2 hinner =>
          split at h
          · exact absurd h (by simp)
          next st2 hupd =>
            split at h
            · exact absurd h (by simp)
            next st3 hsubs =>
              -- the final path of the processed chapter is never P
              have hPnew : P ≠ generateChapterFileName ((i : Int) + 1)
                  (chapters.get ⟨i, hi⟩).name := by
                intro hc
                have hgen : generateChapterFileName ((i : Int) + 1)
                    (chapters.get ⟨i, hi⟩).name
                    = generateChapterFileName ((i : Int) + 1) "" := rfl
                have := hround i hi
                rw [← hgen, ← hc, hextP] at this
                omega
              have hPold : P ≠ (chapters.get ⟨i, hi⟩).filePath := by
                have hd := hdist i hi (Nat.le_refl i) hii0
                rw [hd.2]
                exact fun hc => hd.1 hc.symm
              have hstage :
                  (chapter2.filePath = generateChapterFileName ((i : Int) + 1)
                      (chapters.get ⟨i, hi⟩).name ∨
                   chapter2.filePath = (chapters.get ⟨i, hi⟩).filePath) ∧
                  chapter2.chapterNumber = (i : Int) + 1 ∧
                  st1.fs.readFile P = st.fs.readFile P := by
                split at hinner
                next hrn =>
                  rw [Option.map_eq_some'] at hinner
                  obtain ⟨st0, hrn2, heq2⟩ := hinner
                  injection heq2 with h1 h2
                  subst h1
                  subst h2
                  exact ⟨Or.inl rfl, rfl, renameProjectFile_reads hrn2 P hPold hPnew⟩
                next hrn =>
                  simp only [Option.some.injEq, Prod.mk.injEq] at hinner
                  obtain ⟨h1, h2⟩ := hinner
                  subst h1
                  subst h2
                  exact ⟨Or.inr rfl, rfl, rfl⟩
              obtain ⟨hpath, hnum, hr1⟩ := hstage
              have hPpath : P ≠ chapter2.filePath := by
                rcases hpath with hp2 | hp2
                · rw [hp2]
                  exact hPnew
                · rw [hp2]
                  exact hPold
              have hr2 := updateChapterFile_reads hupd P hPpath
              -- the subsection pass writes to the same chapter
              have hget : (chapters.set i chapter2).get ⟨i, by simpa using hi⟩
                  = chapter2 := by
                simp [List.get_eq_getElem, List.getElem_set]
              have hfind2 : (chapters.set i chapter2).find?
                  (fun c => c.chapterNumber == (i : Int) + 1) = some chapter2 := by
                have := find?_at_first_true
                  (fun c => c.chapterNumber == (i : Int) + 1)
                  (chapters.set i chapter2) i (by simpa using hi)
                  (fun j hj hlt => by
                    have hji : ¬ i = j := by omega
                    have hcj := hcan j (by simpa using hj) hlt
                    simp only [List.get_eq_getElem] at hcj
                    simp only [List.get_eq_getElem, List.getElem_set, hji, if_false]
                    simp [hcj]
                    omega)
                  (by rw [hget]; simp [hnum])
                rw [hget] at this
                exact this
              have hr3 := renumberSubsections_reads hsubs P
                (fun ch hf => by
                  rw [hfind2] at hf
                  injection hf with hv
                  rw [hv] at hPpath
                  exact hPpath)
              have hrec := ih (chapters.set i chapter2) st3 (i + 1) i0
                (by simpa using hi0) P
                (by
                  have : (chapters.set i chapter2).get ⟨i0, by simpa using hi0⟩
                      = chapters.get ⟨i0, hi0⟩ := by
                    have hii : ¬ i = i0 := hii0
                    simp [List.get_eq_getElem, List.getElem_set, hii, if_false]
                  rw [this, hname])
                (by
                  have : (chapters.set i chapter2).get ⟨i0, by simpa using hi0⟩
                      = chapters.get ⟨i0, hi0⟩ := by
                    have hii : ¬ i = i0 := hii0
                    simp [List.get_eq_getElem, List.getElem_set, hii, if_false]
                  rw [this, hnum0])
                hextP
                (fun k hk => hround k (by simpa using hk))
                (fun j hj hij hji0 => by
                  have hji : ¬ i = j := by omega
                  have : (chapters.set i chapter2).get ⟨j, hj⟩
                      = chapters.get ⟨j, by simpa using hj⟩ := by
                    simp [List.get_eq_getElem, List.getElem_set, hji, if_false]
                  rw [this]
                  exact hdist j (by simpa using hj) (by omega) hji0)
                (fun j hj hlt => by
                  by_cases hji : j = i
                  · subst hji
                    have : (chapters.set j chapter2).get ⟨j, hj⟩ = chapter2 := by
                      simp [List.get_eq_getElem, List.getElem_set]
                    rw [this, hnum]
                  · have hij2 : ¬ i = j := fun hc => hji hc.symm
                    have : (chapters.set i chapter2).get ⟨j, hj⟩
                        = chapters.get ⟨j, by simpa using hj⟩ := by
                      simp [List.get_eq_getElem, List.getElem_set, hij2, if_false]
                    rw [this]
                    exact hcan j (by simpa using hj) (by omega))
                res h
              rw [hrec, hr3, hr2, hr1]
      case isFalse heq =>
        exact ih chapters st (i + 1) i0 hi0 P hname hnum0 hextP hround
          (fun j hj hij hji0 => hdist j hj (by omega) hji0)
          (fun j hj hlt => by
            by_cases hji : j = i
            · subst hji
              push_neg at heq
              exact heq
            · exact hcan j hj (by omega))
          res h
    case isFalse hi =>
      simp only [Option.some.injEq] at h
      subst h
      rfl

theorem renumber_preserves_skipped_chapter (st : St) (res : List ChapterInfo × St)
    (i0 : Nat) (hi0 : i0 < (analyzeProject st.fs).length) (P : String)
    (hname : ((analyzeProject st.fs).get ⟨i0, hi0⟩).fileName = P)
    (hnum0 : ((analyzeProject st.fs).get ⟨i0, hi0⟩).chapterNumber = (i0 : Int) + 1)
    (hextP : extractChapterNumber P = (i0 : Int) + 1)
    (hround : ∀ k, k < (analyzeProject st.fs).length →
       extractChapterNumber (generateChapterFileName ((k : Int) + 1) "") = (k : Int) + 1)
    (hdist : ∀ j (hj : j < (analyzeProject st.fs).length), j ≠ i0 →
       ((analyzeProject st.fs).get ⟨j, hj⟩).fileName ≠ P ∧
       ((analyzeProject st.fs).get ⟨j, hj⟩).filePath
         = ((analyzeProject st.fs).get ⟨j, hj⟩).fileName)
    (hbp : ∀ q, P ≠ q ++ BACKUP_SUFFIX)
    (h : renumberChapters st = some res) :
    res.2.fs.readFile P = st.fs.readFile P := by
  simp only [renumberChapters] at h
  split at h
  · simp only [Option.some.injEq] at h
    subst h
    rfl
  · split at h
    · exact absurd h (by simp)
    next st1 hback =>
      unfold renumberLoop at h
      have hpres := renumberLoopAux_preserves ((analyzeProject st.fs).length + 1)
        (analyzeProject st.fs) st1 0 i0 hi0 P hname hnum0 hextP hround
        (fun j hj hij hji0 => hdist j hj hji0)
        (fun j hj hlt => absurd hlt (by omega))
        res h
      rw [hpres, backupAll_reads hback P hbp]

theorem mem_hashInsert {l : List (Nat × EditorInfo)} {k : Nat} {v : EditorInfo}
    {e : Nat × EditorInfo} (h : e ∈ hashInsert l k v) : e ∈ l ∨ e = (k, v) := by
  induction l with
  | nil => simp [hashInsert] at h; simp [h]
  | cons x xs ih =>
    simp only [hashInsert] at h
    by_cases hx : x.1 == k
    · simp [hx] at h
      rcases h with h | h
      · right; simp [h]
      · left; simp [h]
    · simp [hx] at h
      rcases h with h | h
      · left; simp [h]
      · rcases ih h with h2 | h2
        · left; simp [h2]
        · right; exact h2

theorem trackedLookup_hashInsert_self (st : List (Nat × EditorInfo)) (k : Nat)
    (v : EditorInfo) :
    ((hashInsert st k v).find? (fun e => e.1 == k)).map (fun e => e.2) = some v := by
  induction st with
  | nil => simp [hashInsert]
  | cons x xs ih =>
    by_cases hx : x.1 = k
    · simp [hashInsert, hx]
    · simp [hashInsert, hx, List.find?_cons_of_neg, ih]

theorem needsSaving_false_of_clean (st : ASState)
    (h : ∀ e ∈ st.tracked, e.2.hasUnsavedChanges = false) (ed : Nat) :
    needsSaving st ed = false := by
  unfold needsSaving trackedLookup
  cases hf : st.tracked.find? (fun e => e.1 == ed) with
  | none => simp
  | some e =>
    have hmem := List.mem_of_find?_eq_some hf
    simp [h e hmem]

theorem savePass_clean (st : ASState) (env : EdEnv) (now : Nat)
    (h : ∀ e ∈ st.tracked, e.2.hasUnsavedChanges = false) :
    savePass st env now = (st, [], 0) := by
  unfold savePass
  have hns := needsSaving_false_of_clean st h
  generalize st.tracked.map Prod.fst = keys
  induction keys with
  | nil => rfl
  | cons ed ks ih => simp [List.foldl, hns ed, ih]

/-! ## Claim theorems -/

/-- C1 (code bug): on the three-chapter project of spec §8 scenario 2,
`moveChapter(project, 0, 2)` succeeds but leaves every chapter file with
its original content — the headers do not rotate to B, C, A, because
renumberChapters re-scans the project from disk (analyzeProject), which
discards the reorder done on the cached list.  The first file's header
capture is still `Chapter 1: A`, not the claimed `Chapter 1: B`. -/
theorem moveChapter_discards_reorder :
    (moveChapter (analyzeProject moveDemoFs) ⟨moveDemoFs, []⟩ 0 2).map
        (fun pr => (pr.2.fs.readFile "chapter_01.md",
                    pr.2.fs.readFile "chapter_02.md",
                    pr.2.fs.readFile "chapter_03.md")) =
      some (some "# Chapter 1: A\n\nAlpha.\n",
            some "# Chapter 2: B\n\nBravo.\n",
            some "# Chapter 3: C\n\nCharlie.\n") ∧
    specFirstHeader "# Chapter 1: A\n\nAlpha.\n" = some "Chapter 1: A" ∧
    ("Chapter 1: A" : String) ≠ "Chapter 1: B" := by
  refine ⟨by rfl, by rfl, by decide⟩

/-- C2 (counterexample): a successful renumberChapters run on a project
whose only chapter is `chapter_01.md` with header `# Chapter 5: Foo`
leaves the file untouched: the filename-derived number is 1, the header
number is still 5, so the claimed invariant fails after the run. -/
theorem renumber_header_mismatch_persists :
    (renumberChapters ⟨mismatchFs, []⟩).map
        (fun pr => pr.2.fs.readFile "chapter_01.md") =
      some (some "# Chapter 5: Foo\n\nbody\n") ∧
    specHeaderNumber "# Chapter 5: Foo\n\nbody\n" = some 5 ∧
    extractChapterNumber "chapter_01.md" = 1 ∧
    (5 : Int) ≠ 1 := by
  refine ⟨by rfl, by rfl, by rfl, by decide⟩

/-- C2 (amended): renumberChapters establishes the filename-number =
header-number agreement only for the chapters it rewrites, i.e. those
whose filename-derived number differs from their 1-based scan position.
Generally: a scanned chapter whose filename-derived number already equals
its position is left byte-for-byte unchanged by a successful run (under
the facts that hold of every real scan: its path is its file name, the
other scanned file names differ from it, canonical file names parse back
to their number, and it is not a backup file), so a divergent header
number persists there.  Concretely, on `mixedFs`: `chapter_01.md`
(position 1, filename number 1, header number 9) is skipped and keeps
header number 9 ≠ 1, while `chapter_03.md` (position 2) is renamed to
`chapter_02.md` and rewritten so that its new header number 2 equals its
new filename number 2. -/
theorem renumber_fixes_only_rewritten_chapters :
    (∀ (st : St) (res : List ChapterInfo × St) (i0 : Nat)
        (hi0 : i0 < (analyzeProject st.fs).length) (P : String),
        ((analyzeProject st.fs).get ⟨i0, hi0⟩).fileName = P →
        ((analyzeProject st.fs).get ⟨i0, hi0⟩).chapterNumber = (i0 : Int) + 1 →
        extractChapterNumber P = (i0 : Int) + 1 →
        (∀ k, k < (analyzeProject st.fs).length →
           extractChapterNumber (generateChapterFileName ((k : Int) + 1) "")
             = (k : Int) + 1) →
        (∀ j (hj : j < (analyzeProject st.fs).length), j ≠ i0 →
           ((analyzeProject st.fs).get ⟨j, hj⟩).fileName ≠ P ∧
           ((analyzeProject st.fs).get ⟨j, hj⟩).filePath
             = ((analyzeProject st.fs).get ⟨j, hj⟩).fileName) →
        (∀ q, P ≠ q ++ BACKUP_SUFFIX) →
        renumberChapters st = some res →
        res.2.fs.readFile P = st.fs.readFile P) ∧
    (renumberChapters ⟨mixedFs, []⟩).map
        (fun pr => (pr.2.fs.readFile "chapter_01.md",
                    pr.2.fs.readFile "chapter_02.md",
                    pr.2.fs.readFile "chapter_03.md")) =
      some (some "# Chapter 9: Bar\n\nBody one.\n",
            some "# Chapter 2: Chapter 2: Baz\n\nBody two.\n",
            none) ∧
    specHeaderNumber "# Chapter 9: Bar\n\nBody one.\n" = some 9 ∧
    extractChapterNumber "chapter_01.md" = 1 ∧
    specHeaderNumber "# Chapter 2: Chapter 2: Baz\n\nBody two.\n" = some 2 ∧
    extractChapterNumber "chapter_02.md" = 2 :=
  ⟨fun st res i0 hi0 P h1 h2 h3 h4 h5 h6 h7 =>
      renumber_preserves_skipped_chapter st res i0 hi0 P h1 h2 h3 h4 h5 h6 h7,
   by rfl, by rfl, by rfl, by rfl, by rfl⟩

/-- C3 (counterexample): parseChapterFile on a file whose first-level
header capture is `Chapter 1: A` extracts the name `Chapter 1: A` — the
whole capture — not the claimed title `A`: the code never strips the
`Chapter N: ` prefix. -/
theorem parse_title_keeps_prefix :
    (parseChapterFile "chapter_01.md" (some "# Chapter 1: A\n\nbody\n")).name
      = "Chapter 1: A" ∧
    ("Chapter 1: A" : String) ≠ "A" := by
  refine ⟨by rfl, by decide⟩

/-- C3 (amended): whenever the multiline pattern `^#\s+(.+)$` matches the
chapter file, the extracted name is always the whole capture, trimmed —
also when the capture has the form `Chapter N: T`. -/
theorem parse_title_is_whole_capture (filePath content : String) (cap : List Char)
    (h : firstLineMatch matchChapterHeadAt content.toList = some cap) :
    (parseChapterFile filePath (some content)).name = String.mk (qtTrim cap) := by
  have h2 : firstLineMatch matchChapterHeadAt content.data = some cap := h
  simp [parseChapterFile, h2]

theorem parse_title_is_whole_capture_witness :
    firstLineMatch matchChapterHeadAt ("# Chapter 1: A\n".toList)
      = some ("Chapter 1: A".toList) ∧
    (parseChapterFile "chapter_01.md" (some "# Chapter 1: A\n")).name
      = String.mk (qtTrim ("Chapter 1: A".toList)) :=
  ⟨by rfl, parse_title_is_whole_capture "chapter_01.md" "# Chapter 1: A\n" _ (by rfl)⟩

/-- C4 (counterexample): on `shiftedFs` (two chapters both off by one), a
successful renumberChapters logs a content write to `chapter_01.md`
(position 3 of the log) before the rename of `chapter_03.md` to
`chapter_02.md` (position 5): renames are not all performed before the
first header rewrite. -/
theorem renumber_interleaves_renames_and_writes :
    (renumberChapters ⟨shiftedFs, []⟩).map (fun p => p.2.log) =
      some [FsEv.copyEv "chapter_02.md" "chapter_02.md.neurodraft_backup",
            FsEv.copyEv "chapter_03.md" "chapter_03.md.neurodraft_backup",
            FsEv.renameEv "chapter_02.md" "chapter_01.md",
            FsEv.writeEv "chapter_01.md",
            FsEv.writeEv "chapter_01.md",
            FsEv.renameEv "chapter_03.md" "chapter_02.md",
            FsEv.writeEv "chapter_02.md",
            FsEv.writeEv "chapter_02.md"] ∧
    [FsEv.copyEv "chapter_02.md" "chapter_02.md.neurodraft_backup",
     FsEv.copyEv "chapter_03.md" "chapter_03.md.neurodraft_backup",
     FsEv.renameEv "chapter_02.md" "chapter_01.md",
     FsEv.writeEv "chapter_01.md",
     FsEv.writeEv "chapter_01.md",
     FsEv.renameEv "chapter_03.md" "chapter_02.md",
     FsEv.writeEv "chapter_02.md",
     FsEv.writeEv "chapter_02.md"].get? 3 = some (FsEv.writeEv "chapter_01.md") ∧
    [FsEv.copyEv "chapter_02.md" "chapter_02.md.neurodraft_backup",
     FsEv.copyEv "chapter_03.md" "chapter_03.md.neurodraft_backup",
     FsEv.renameEv "chapter_02.md" "chapter_01.md",
     FsEv.writeEv "chapter_01.md",
     FsEv.writeEv "chapter_01.md",
     FsEv.renameEv "chapter_03.md" "chapter_02.md",
     FsEv.writeEv "chapter_02.md",
     FsEv.writeEv "chapter_02.md"].get? 5
      = some (FsEv.renameEv "chapter_03.md" "chapter_02.md") ∧
    (3 : Nat) < 5 := by
  refine ⟨by rfl, by rfl, by rfl, by decide⟩

/-- C5 (counterexample): saveProjectMetadata's operation sequence is not
of the write-to-temp-then-rename form — its very first operation truncates
`project.json` itself — and interrupting the run right after the open
leaves `project.json` empty, not intact at its previous content `OLD`. -/
theorem save_metadata_not_atomic :
    specAtomicReplace (saveProjectMetadataOps "NEW") "project.json" = false ∧
    (runMetaOps [("project.json", "OLD")]
        ((saveProjectMetadataOps "NEW").take 1)).readFile "project.json" = some "" ∧
    (some "" : Option String) ≠ some "OLD" := by
  refine ⟨by rfl, by rfl, by decide⟩

/-- C5 (amended): saveProjectMetadata writes `project.json` in place: it
opens the file for writing (truncating it) and writes the document
directly — no temporary file and no rename — so completing the run
installs the new document, while a failure after the open leaves the file
truncated, destroying the previous content. -/
theorem save_metadata_writes_in_place (old doc : String) :
    runMetaOps [("project.json", old)] (saveProjectMetadataOps doc)
      = [("project.json", doc)] ∧
    runMetaOps [("project.json", old)] ((saveProjectMetadataOps doc).take 1)
      = [("project.json", "")] ∧
    specAtomicReplace (saveProjectMetadataOps doc) "project.json" = false := by
  refine ⟨by rfl, by rfl, by rfl⟩

/-- C6 (counterexample): on `loneFs`, one run of renumberChapters leaves
no file at `chapter_01.md.neurodraft_backup`, but a second run creates it
(every run re-takes a backup of every chapter): the filesystem after two
runs differs from the filesystem after one. -/
theorem renumber_not_idempotent_on_backups :
    ((renumberChapters ⟨loneFs, []⟩).bind (fun p =>
      (renumberChapters ⟨p.2.fs, []⟩).map (fun q =>
        (p.2.fs.readFile "chapter_01.md.neurodraft_backup",
         q.2.fs.readFile "chapter_01.md.neurodraft_backup")))) =
      some (none, some "# Chapter 1: X\n\nBody.\n") ∧
    (none : Option String) ≠ some "# Chapter 1: X\n\nBody.\n" := by
  refine ⟨by rfl, by decide⟩

/-- C6 (amended): renumberChapters is idempotent on the chapter files but
not on the backups.  Generally, on any project whose scan is already
canonical (every chapter's number equals its position) — which is the
state a successful run leaves behind — a run changes no file other than
`.neurodraft_backup` files.  Concretely, on the two-run demonstration the
second run leaves every chapter file exactly as the first run left it and
its whole event log is a single backup copy, yet that new backup file
makes the full filesystem state differ from the state after one run. -/
theorem renumber_second_run_only_backs_up :
    (∀ (st : St) (res : List ChapterInfo × St),
        (∀ j (hj : j < (analyzeProject st.fs).length),
           ((analyzeProject st.fs).get ⟨j, hj⟩).chapterNumber = (j : Int) + 1) →
        renumberChapters st = some res →
        ∀ p, (∀ q, p ≠ q ++ BACKUP_SUFFIX) →
          res.2.fs.readFile p = st.fs.readFile p) ∧
    ((renumberChapters ⟨loneFsB, []⟩).bind (fun p =>
      (renumberChapters ⟨p.2.fs, []⟩).map (fun q =>
        (p.2.fs.readFile "chapter_01.md", q.2.fs.readFile "chapter_01.md",
         p.2.fs.readFile "chapter_02.md", q.2.fs.readFile "chapter_02.md",
         p.2.fs.readFile "chapter_03.md", q.2.fs.readFile "chapter_03.md",
         q.2.log)))) =
      some (some "# Chapter 1: Y\n\nStuff.\n", some "# Chapter 1: Y\n\nStuff.\n",
            none, none, none, none,
            [FsEv.copyEv "chapter_01.md" "chapter_01.md.neurodraft_backup"]) :=
  ⟨fun st res hc h p hp => renumber_canonical_touches_only_backups st res hc h p hp,
   by rfl⟩

/-- C7: every `modified` event from a registered session (with the
controller enabled) restarts the one-shot debounce timer to expire
`typing_pause_seconds` after that event; consequently, in the scenario
with the 10-second default and modifications at t=0, 3, 6 followed by
idle, exactly one save pass runs, at t=16 — the run up to t=10 produces no
event at all, and the run up to t=20 produces exactly the single save pass
at t=16. -/
theorem debounce_resets_to_last_modification (st : ASState) (ed : Nat) (t : Nat)
    (info : EditorInfo) (hen : st.enabled = true)
    (hreg : trackedLookup st ed = some info) :
    (onEditorModified st ed t).pauseDue = some (t + st.typingPauseSeconds.toNat) ∧
    (simulate demoEnv [(0, 1), (3, 1), (6, 1)] 20 demoAS).2 =
      [(16, ASEv.fileWrite "f.md" "Draft text."),
       (16, ASEv.autoSaveCompleted 1),
       (16, ASEv.statusChanged "Auto-saved 1 files after typing pause")] ∧
    (simulate demoEnv [(0, 1), (3, 1), (6, 1)] 10 demoAS).2 = [] := by
  refine ⟨?_, by rfl, by rfl⟩
  simp [onEditorModified, hen, hreg]

theorem debounce_resets_witness :
    (onEditorModified demoAS 1 5).pauseDue = some (5 + demoAS.typingPauseSeconds.toNat) ∧
    (simulate demoEnv [(0, 1), (3, 1), (6, 1)] 20 demoAS).2 =
      [(16, ASEv.fileWrite "f.md" "Draft text."),
       (16, ASEv.autoSaveCompleted 1),
       (16, ASEv.statusChanged "Auto-saved 1 files after typing pause")] ∧
    (simulate demoEnv [(0, 1), (3, 1), (6, 1)] 10 demoAS).2 = [] :=
  debounce_resets_to_last_modification demoAS 1 5 ⟨"f.md", 0, false⟩ rfl rfl

/-- C8: saveAllOnExit saves every registered session whether or not its
dirty flag is set: with two registered sessions of which exactly the first
is dirty (and both saves succeeding), it writes both files, in
registration order, and emits exactly one status event, with the text
`Exit: Saved 2 files`. -/
theorem exit_saves_clean_and_dirty (a b : Nat) (ia ib : EditorInfo) (ea eb : EditorSt)
    (st : ASState) (env : EdEnv) (now : Nat)
    (hab : a ≠ b)
    (htr : st.tracked = [(a, ia), (b, ib)])
    (_hdirtyA : ia.hasUnsavedChanges = true)
    (_hcleanB : ib.hasUnsavedChanges = false)
    (hea : env.lookupEd a = some ea) (heb : env.lookupEd b = some eb)
    (hoka : ea.saveOk = true) (hokb : eb.saveOk = true) :
    (saveAllOnExit st env now).2 =
      [ASEv.fileWrite ia.filePath ea.content,
       ASEv.fileWrite ib.filePath eb.content,
       ASEv.statusChanged "Exit: Saved 2 files"] := by
  simp [saveAllOnExit, htr, saveEditor, trackedLookup, markAsSaved, hea, heb,
        hoka, hokb, hab, Ne.symm hab]
  rfl

theorem exit_saves_witness :
    (saveAllOnExit demoExitSt demoExitEnv 42).2 =
      [ASEv.fileWrite "a.md" "Alpha",
       ASEv.fileWrite "b.md" "Beta",
       ASEv.statusChanged "Exit: Saved 2 files"] :=
  exit_saves_clean_and_dirty 1 2 ⟨"a.md", 0, true⟩ ⟨"b.md", 0, false⟩
    ⟨"Alpha", true⟩ ⟨"Beta", true⟩ demoExitSt demoExitEnv 42
    (by decide) rfl rfl rfl rfl rfl rfl rfl

/-- C9: registerEditor always creates the auto-save entry with the dirty
flag false (and `lastSaved = now`), regardless of the editor's actual
unsaved-changes state; and as long as every tracked entry is clean, both
the periodic pass (performAutoSave) and the debounce pass (saveAll) write
nothing and change nothing — content modified before registration is never
saved until a `modified` event sets the flag. -/
theorem register_initializes_clean (st : ASState) (ed : Nat) (path : String)
    (now t : Nat) (env : EdEnv)
    (hclean : ∀ e ∈ st.tracked, e.2.hasUnsavedChanges = false) :
    trackedLookup (registerEditor st ed path now) ed = some ⟨path, now, false⟩ ∧
    performAutoSave (registerEditor st ed path now) env t
      = (registerEditor st ed path now, []) ∧
    saveAll (registerEditor st ed path now) env t
      = (registerEditor st ed path now, []) := by
  have hclean2 : ∀ e ∈ (registerEditor st ed path now).tracked,
      e.2.hasUnsavedChanges = false := by
    intro e he
    rcases mem_hashInsert he with h | h
    · exact hclean e h
    · simp [h]
  refine ⟨trackedLookup_hashInsert_self st.tracked ed _, ?_, ?_⟩
  · unfold performAutoSave
    by_cases hen : (registerEditor st ed path now).enabled <;>
      simp [hen, savePass_clean _ env t hclean2]
  · unfold saveAll
    simp [savePass_clean _ env t hclean2]

theorem register_initializes_clean_witness :
    trackedLookup (registerEditor (mkAutoSaveManager 300 10 true) 1 "f.md" 0) 1
      = some ⟨"f.md", 0, false⟩ ∧
    performAutoSave (registerEditor (mkAutoSaveManager 300 10 true) 1 "f.md" 0) demoEnv 5
      = (registerEditor (mkAutoSaveManager 300 10 true) 1 "f.md" 0, []) ∧
    saveAll (registerEditor (mkAutoSaveManager 300 10 true) 1 "f.md" 0) demoEnv 5
      = (registerEditor (mkAutoSaveManager 300 10 true) 1 "f.md" 0, []) :=
  register_initializes_clean (mkAutoSaveManager 300 10 true) 1 "f.md" 0 5 demoEnv
    (by intro e he; simp [mkAutoSaveManager] at he)

/-- C10: setAutoSaveInterval with a value outside [60, 3600], and
setTypingPauseInterval with a value outside [5, 60], return before doing
anything: the state (stored intervals, running timer deadlines, tracked
entries) is unchanged and no effect — no settings persistence, no status
signal — is produced. -/
theorem out_of_range_settings_ignored (st : ASState) (s1 s2 : Int) (now : Nat)
    (h1 : s1 < MIN_INTERVAL ∨ MAX_INTERVAL < s1)
    (h2 : s2 < MIN_TYPING_PAUSE ∨ MAX_TYPING_PAUSE < s2) :
    setAutoSaveInterval st s1 now = (st, []) ∧
    setTypingPauseInterval st s2 now = (st, []) := by
  constructor
  · unfold setAutoSaveInterval
    rw [if_pos h1]
  · unfold setTypingPauseInterval
    rw [if_pos h2]

theorem out_of_range_settings_witness :
    setAutoSaveInterval demoAS 30 0 = (demoAS, []) ∧
    setTypingPauseInterval demoAS 4 0 = (demoAS, []) :=
  out_of_range_settings_ignored demoAS 30 4 0 (Or.inl (by decide)) (Or.inl (by decide))

/-- C4 (amended): the event log of every successful renumberChapters run
is an initial backup pass (copies/removals of backup files) followed by a
sequence of per-chapter blocks, each block being either
`[write p, write p]` or `[rename old p, write p, write p]`: a chapter's
rename, when needed, immediately precedes that same chapter's header
rewrite and subsection rewrite, and all of them target the chapter's final
path — so renames are interleaved per chapter rather than all completed
before the first rewrite. -/
theorem renumber_log_is_backup_then_blocks (st : St) (res : List ChapterInfo × St)
    (hlog : st.log = []) (h : renumberChapters st = some res) :
    renumberLogOk res.2.log = true := by
  simp only [renumberChapters] at h
  split at h
  · simp only [Option.some.injEq] at h
    subst h
    simp [renumberLogOk, hlog, chapterBlocksOk, List.dropWhile]
  · split at h
    · exact absurd h (by simp)
    next st1 hback =>
      unfold renumberLoop at h
      obtain ⟨evs, he, ha⟩ := backupAll_log hback
      obtain ⟨blocks, hb, hok⟩ :=
        renumberLoopAux_log ((analyzeProject st.fs).length + 1) (analyzeProject st.fs)
          st1 0 (fun j hj hlt => absurd hlt (by omega)) res h
      rw [hb, he, hlog, List.nil_append]
      unfold renumberLogOk
      rw [dropWhile_append_backup ha, blocks_dropWhile_id hok]
      exact hok

theorem renumber_log_blocks_witness :
    renumberLogOk
      [FsEv.copyEv "chapter_02.md" "chapter_02.md.neurodraft_backup",
       FsEv.copyEv "chapter_03.md" "chapter_03.md.neurodraft_backup",
       FsEv.renameEv "chapter_02.md" "chapter_01.md",
       FsEv.writeEv "chapter_01.md",
       FsEv.writeEv "chapter_01.md",
       FsEv.renameEv "chapter_03.md" "chapter_02.md",
       FsEv.writeEv "chapter_02.md",
       FsEv.writeEv "chapter_02.md"] = true :=
  renumber_log_is_backup_then_blocks ⟨shiftedFs, []⟩
    ([⟨"Chapter 2: B", "chapter_01.md", "chapter_01.md", 1, []⟩,
      ⟨"Chapter 3: C", "chapter_02.md", "chapter_02.md", 2, []⟩],
     ⟨[("chapter_02.md.neurodraft_backup", "# Chapter 2: B\n\nBravo.\n"),
       ("chapter_03.md.neurodraft_backup", "# Chapter 3: C\n\nCharlie.\n"),
       ("chapter_01.md", "# Chapter 1: Chapter 2: B\n\nBravo.\n"),
       ("chapter_02.md", "# Chapter 2: Chapter 3: C\n\nCharlie.\n")],
      [FsEv.copyEv "chapter_02.md" "chapter_02.md.neurodraft_backup",
       FsEv.copyEv "chapter_03.md" "chapter_03.md.neurodraft_backup",
       FsEv.renameEv "chapter_02.md" "chapter_01.md",
       FsEv.writeEv "chapter_01.md",
       FsEv.writeEv "chapter_01.md",
       FsEv.renameEv "chapter_03.md" "chapter_02.md",
       FsEv.writeEv "chapter_02.md",
       FsEv.writeEv "chapter_02.md"]⟩)
    rfl (by rfl)

end NeuroDraft
